import Mathlib

/-!
# Verification of the parsemath tokenizer and parser

Shallow embedding of `src/parsemath/tokenizer.rs` and `src/parsemath/parser.rs`.
The repository's `token.rs` and `ast.rs` are not present under `src/`; the
`Token`, `OperPrec` and `Node` types and `Token::get_oper_prec` are modelled
from the specification (section 3, DATA MODEL), which fixes their variants and
the precedence order `DefaultZero < AddSub < MulDiv < Power < Negative`.

Machine floats (`f64`) only ever carry decimal-literal values produced by the
tokenizer; they are modelled as exact rationals (`ℚ`), which agrees with `f64`
semantics on every literal appearing in the claims.  Rust panics (the
`unwrap()` on `str::parse::<f64>` in the tokenizer) are modelled as an explicit
`panicked` outcome.  The mutually recursive parser is given an explicit fuel
argument so that it is structurally recursive; fuel sufficiency for the
canonical fuel `stdFuel` is proved below (`fuel_enough`), so no behaviour is
hidden behind an out-of-fuel escape.
-/

namespace ParseMath

/-- Modelled from the spec: `Token` from the repository's `token.rs` (not under
`src/`), "a tagged value, one of: `Number(float64)`, `Add`, `Subtract`,
`Multiply`, `Divide`, `Caret`, `LeftParen`, `RightParen`, `EndOfInput`".
The `f64` payload is modelled as an exact rational. The `EndOfInput` variant is
named `EOF` as in `parser.rs`/`tokenizer.rs`, which refer to `Token::EOF`. -/
inductive Token where
  | Num (v : ℚ)
  | Add
  | Subtract
  | Multiply
  | Divide
  | Caret
  | LeftParen
  | RightParen
  | EOF
deriving DecidableEq

/-- Modelled from the spec: `OperatorPrecedence` from `token.rs` (not under
`src/`): "an ordered rank (lowest→highest):
DefaultZero < AddSub < MulDiv < Power < Negative". -/
inductive OperPrec where
  | DefaultZero
  | AddSub
  | MulDiv
  | Power
  | Negative
deriving DecidableEq

/-- The rank realising the spec's order on `OperPrec`; comparisons in the
parser are rank comparisons. -/
def OperPrec.toNat : OperPrec → Nat
  | .DefaultZero => 0
  | .AddSub => 1
  | .MulDiv => 2
  | .Power => 3
  | .Negative => 4

/-- Modelled from the spec: `Token::get_oper_prec` from `token.rs` (not under
`src/`). The spec uses `OperPrec` "only as a comparison threshold during
parsing" with `AddSub` for `+ -`, `MulDiv` for `* /`, `Power` for `^`
(section 4.2, infix combination); every non-operator token ranks lowest
(`DefaultZero`), which is what makes the climbing loop stop on them. -/
def Token.get_oper_prec : Token → OperPrec
  | .Add => .AddSub
  | .Subtract => .AddSub
  | .Multiply => .MulDiv
  | .Divide => .MulDiv
  | .Caret => .Power
  | _ => .DefaultZero

/-- Modelled from the spec: `Node` from `ast.rs` (not under `src/`): "a tagged
tree value, one of: `Number(float64)` (leaf), `Negative(child)`,
`Add(left,right)`, `Subtract(left,right)`, `Multiply(left,right)`,
`Divide(left,right)`, `Caret(left,right)` (base, exponent)". -/
inductive Node where
  | Number (v : ℚ)
  | Negative (child : Node)
  | Add (l r : Node)
  | Subtract (l r : Node)
  | Multiply (l r : Node)
  | Divide (l r : Node)
  | Caret (l r : Node)
deriving DecidableEq

/-- `ParseError` from `parser.rs` lines 129-133. -/
inductive ParseError where
  | UnableToParse (msg : String)
  | InvalidOperator (msg : String)
deriving DecidableEq

/-! ## Tokenizer (`tokenizer.rs`)

The tokenizer state is the remaining character list (Rust's
`Peekable<Chars>`); one `next` call returns a result and the new state. -/

/-- Modelled: Rust's `char::is_numeric` (used in `tokenizer.rs` line 29 for
characters continuing a numeric literal), restricted to ASCII decimal digits.
`char::is_numeric` additionally accepts non-ASCII Unicode numeric characters;
on ASCII input — which every claim uses — the two coincide. -/
def rustIsNumeric (c : Char) : Bool := c.isDigit

/-- The scanning loop of `tokenizer.rs` lines 28-34: starting after an initial
digit, consume every immediately following character that is a digit or a
decimal point. Returns the consumed run and the remaining characters. -/
def scanNum : List Char → List Char × List Char
  | [] => ([], [])
  | c :: cs =>
    if rustIsNumeric c || c == '.' then
      let p := scanNum cs
      (c :: p.1, p.2)
    else ([], c :: cs)

/-- Numeric value of a digit run, most significant first. -/
def digitsVal (l : List Char) : Nat :=
  l.foldl (fun a c => 10 * a + (c.toNat - 48)) 0

/-- Modelled: Rust `str::parse::<f64>` applied to a scanned literal
(`tokenizer.rs` line 35). Per the documented `f64::from_str` grammar a
digit-and-dot string parses iff it is `Digit+`, `Digit+ '.' Digit*` or
`Digit* '.' Digit+`; two or more dots fail. The value is the exact decimal
rational (exact for every literal in the claims; scanned literals never
reach the exponent/`inf`/`nan` forms of the grammar). -/
def parseF64 (l : List Char) : Option ℚ :=
  match l.splitOn '.' with
  | [a] =>
    if !a.isEmpty && a.all Char.isDigit then some (digitsVal a : ℚ) else none
  | [a, b] =>
    if (a.all Char.isDigit && b.all Char.isDigit) && (!a.isEmpty || !b.isEmpty) then
      some ((digitsVal a : ℚ) + (digitsVal b : ℚ) / (10 : ℚ) ^ b.length)
    else none
  | _ => none

/-- Outcome of one `Tokenizer::next` call (`tokenizer.rs` lines 21-47):
`Some(token)`, `None` (unrecognized character), or a Rust panic from the
`unwrap()` on a failed `f64` parse. -/
inductive Scanned where
  | tok (t : Token)
  | fail
  | panicked
deriving DecidableEq

/-- `Tokenizer::next` (`tokenizer.rs` lines 21-47). Empty input yields the
`EOF` token (and leaves the state empty, so further calls yield `EOF` again,
as in the source where `Chars::next` keeps returning `None`); a digit starts a
literal scan whose text is handed to the float parser, panicking on failure;
the seven symbol characters map to their tokens; anything else is consumed and
yields `None` (`fail`). -/
def Tokenizer.next (expr : List Char) : Scanned × List Char :=
  match expr with
  | [] => (.tok .EOF, [])
  | c :: cs =>
    if c.isDigit then
      let p := scanNum cs
      match parseF64 (c :: p.1) with
      | some v => (.tok (.Num v), p.2)
      | none => (.panicked, p.2)
    else if c == '+' then (.tok .Add, cs)
    else if c == '-' then (.tok .Subtract, cs)
    else if c == '*' then (.tok .Multiply, cs)
    else if c == '/' then (.tok .Divide, cs)
    else if c == '^' then (.tok .Caret, cs)
    else if c == '(' then (.tok .LeftParen, cs)
    else if c == ')' then (.tok .RightParen, cs)
    else (.fail, cs)

/-! ## Parser (`parser.rs`) -/

/-- The parser state of `parser.rs` lines 5-8: the tokenizer (its remaining
characters) and the single lookahead `current_token`. -/
structure PState where
  rest : List Char
  current : Token
deriving DecidableEq

/-- Result of a parser step: success, a returned `ParseError`, a propagated
Rust panic, or fuel exhaustion of the embedding (shown unreachable for
`stdFuel` below). -/
inductive PRes (α : Type) where
  | ok (a : α)
  | err (e : ParseError)
  | panicked
  | nofuel
deriving DecidableEq

/-- Modelled: the `{:?}` (`derive(Debug)`) rendering of a token used in the
`format!` error messages of `parser.rs` lines 108-111 and 120-124; the float
payload rendering is approximated (no claim inspects message text). -/
def Token.debugRepr : Token → String
  | .Num v => "Num(" ++ toString v.num ++ "/" ++ toString v.den ++ ")"
  | .Add => "Add"
  | .Subtract => "Subtract"
  | .Multiply => "Multiply"
  | .Divide => "Divide"
  | .Caret => "Caret"
  | .LeftParen => "LeftParen"
  | .RightParen => "RightParen"
  | .EOF => "EOF"

/-- `Parser::get_next_token` (`parser.rs` lines 33-40): pull one token,
turning the tokenizer's `None` into `InvalidOperator("Invalid character")`. -/
def get_next_token (st : PState) : PRes PState :=
  match Tokenizer.next st.rest with
  | (.tok t, r) => .ok ⟨r, t⟩
  | (.fail, _) => .err (.InvalidOperator "Invalid character")
  | (.panicked, _) => .panicked

/-- `Parser::check_paren` (`parser.rs` lines 115-126): require and consume a
closing parenthesis. -/
def check_paren (st : PState) : PRes PState :=
  if st.current = Token.RightParen then
    get_next_token st
  else
    .err (.InvalidOperator
      ("Expected " ++ Token.debugRepr .RightParen ++ ", got " ++ st.current.debugRepr))

mutual

/-- `Parser::generate_ast` (`parser.rs` lines 42-53): parse a primary
expression, then fold infix operators while the current token's precedence
strictly exceeds the threshold. -/
def generate_ast (fuel : Nat) (st : PState) (oper_prec : OperPrec) : PRes (Node × PState) :=
  match fuel with
  | 0 => .nofuel
  | f + 1 =>
    match parse_number f st with
    | .ok (left, st1) => generate_ast_loop f st1 oper_prec left
    | .err e => .err e
    | .panicked => .panicked
    | .nofuel => .nofuel

/-- The `while` loop of `parser.rs` lines 45-51 (with its `break` on `EOF`). -/
def generate_ast_loop (fuel : Nat) (st : PState) (oper_prec : OperPrec) (left : Node) :
    PRes (Node × PState) :=
  match fuel with
  | 0 => .nofuel
  | f + 1 =>
    if oper_prec.toNat < st.current.get_oper_prec.toNat then
      if st.current = Token.EOF then .ok (left, st)
      else
        match convert_token_to_node f st left with
        | .ok (l2, st2) => generate_ast_loop f st2 oper_prec l2
        | .err e => .err e
        | .panicked => .panicked
        | .nofuel => .nofuel
    else .ok (left, st)

/-- `Parser::parse_number` (`parser.rs` lines 55-79): primary expressions —
unary minus (operand at `Negative` threshold), numeric literal, parenthesized
group with implicit multiplication when `(` immediately follows the consumed
`)`, and `UnableToParse` otherwise. -/
def parse_number (fuel : Nat) (st : PState) : PRes (Node × PState) :=
  match fuel with
  | 0 => .nofuel
  | f + 1 =>
    match st.current with
    | .Subtract =>
      match get_next_token st with
      | .ok st1 =>
        match generate_ast f st1 .Negative with
        | .ok (expr, st2) => .ok (.Negative expr, st2)
        | .err e => .err e
        | .panicked => .panicked
        | .nofuel => .nofuel
      | .err e => .err e
      | .panicked => .panicked
      | .nofuel => .nofuel
    | .Num i =>
      match get_next_token st with
      | .ok st1 => .ok (.Number i, st1)
      | .err e => .err e
      | .panicked => .panicked
      | .nofuel => .nofuel
    | .LeftParen =>
      match get_next_token st with
      | .ok st1 =>
        match generate_ast f st1 .DefaultZero with
        | .ok (expr, st2) =>
          match check_paren st2 with
          | .ok st3 =>
            if st3.current = Token.LeftParen then
              match generate_ast f st3 .MulDiv with
              | .ok (right, st4) => .ok (.Multiply expr right, st4)
              | .err e => .err e
              | .panicked => .panicked
              | .nofuel => .nofuel
            else .ok (expr, st3)
          | .err e => .err e
          | .panicked => .panicked
          | .nofuel => .nofuel
        | .err e => .err e
        | .panicked => .panicked
        | .nofuel => .nofuel
      | .err e => .err e
      | .panicked => .panicked
      | .nofuel => .nofuel
    | _ => .err (.UnableToParse "Unable to parse")

/-- `Parser::convert_token_to_node` (`parser.rs` lines 81-113): consume the
current infix operator and parse its right operand at the operator's
threshold (`AddSub` for `+ -`, `MulDiv` for `* /`, `Power` for `^`);
`InvalidOperator` on anything else. -/
def convert_token_to_node (fuel : Nat) (st : PState) (left_expr : Node) : PRes (Node × PState) :=
  match fuel with
  | 0 => .nofuel
  | f + 1 =>
    match st.current with
    | .Add =>
      match get_next_token st with
      | .ok st1 =>
        match generate_ast f st1 .AddSub with
        | .ok (right, st2) => .ok (.Add left_expr right, st2)
        | .err e => .err e
        | .panicked => .panicked
        | .nofuel => .nofuel
      | .err e => .err e
      | .panicked => .panicked
      | .nofuel => .nofuel
    | .Subtract =>
      match get_next_token st with
      | .ok st1 =>
        match generate_ast f st1 .AddSub with
        | .ok (right, st2) => .ok (.Subtract left_expr right, st2)
        | .err e => .err e
        | .panicked => .panicked
        | .nofuel => .nofuel
      | .err e => .err e
      | .panicked => .panicked
      | .nofuel => .nofuel
    | .Multiply =>
      match get_next_token st with
      | .ok st1 =>
        match generate_ast f st1 .MulDiv with
        | .ok (right, st2) => .ok (.Multiply left_expr right, st2)
        | .err e => .err e
        | .panicked => .panicked
        | .nofuel => .nofuel
      | .err e => .err e
      | .panicked => .panicked
      | .nofuel => .nofuel
    | .Divide =>
      match get_next_token st with
      | .ok st1 =>
        match generate_ast f st1 .MulDiv with
        | .ok (right, st2) => .ok (.Divide left_expr right, st2)
        | .err e => .err e
        | .panicked => .panicked
        | .nofuel => .nofuel
      | .err e => .err e
      | .panicked => .panicked
      | .nofuel => .nofuel
    | .Caret =>
      match get_next_token st with
      | .ok st1 =>
        match generate_ast f st1 .Power with
        | .ok (right, st2) => .ok (.Caret left_expr right, st2)
        | .err e => .err e
        | .panicked => .panicked
        | .nofuel => .nofuel
      | .err e => .err e
      | .panicked => .panicked
      | .nofuel => .nofuel
    | _ => .err (.InvalidOperator ("Please enter valid operator " ++ st.current.debugRepr))

end

/-- `Parser::new` (`parser.rs` lines 11-21): build the tokenizer and pull the
first token, failing with `InvalidOperator("Invalid character")` when the
tokenizer yields `None`. -/
def Parser.new (expr : String) : PRes PState :=
  match Tokenizer.next expr.toList with
  | (.tok t, r) => .ok ⟨r, t⟩
  | (.fail, _) => .err (.InvalidOperator "Invalid character")
  | (.panicked, _) => .panicked

/-- `Parser::parse` (`parser.rs` lines 23-29): run the climbing routine at the
lowest threshold. The final parser state is kept (the source mutates `self`)
so that consumption of input can be stated. -/
def Parser.parse (fuel : Nat) (st : PState) : PRes (Node × PState) :=
  generate_ast fuel st .DefaultZero

/-- Canonical fuel: proved sufficient for an input of this length. -/
def stdFuel (s : String) : Nat := 4 * (s.length + 1) + 4

/-- End-to-end run: `Parser::new` followed by `Parser::parse`, keeping the
final state. -/
def parseExpr (s : String) : PRes (Node × PState) :=
  match Parser.new s with
  | .ok st => Parser.parse (stdFuel s) st
  | .err e => .err e
  | .panicked => .panicked
  | .nofuel => .nofuel

/-- End-to-end run discarding the final state, as the Rust caller sees it. -/
def parseNode (s : String) : PRes Node :=
  match parseExpr s with
  | .ok (n, _) => .ok n
  | .err e => .err e
  | .panicked => .panicked
  | .nofuel => .nofuel

/-! ## Tokenizer facts shared by several claims -/

/-- The tokenizer never returns the `EOF` token on a nonempty state: every
arm of `Tokenizer::next` for a present character yields a non-`EOF` token,
`None`, or a panic. -/
theorem next_cons_ne_eof (c : Char) (cs : List Char) (r : List Char) :
    Tokenizer.next (c :: cs) ≠ (.tok .EOF, r) := by
  intro h
  simp only [Tokenizer.next] at h
  repeat' split at h
  all_goals simp_all

/-- The seven single-symbol characters recognized by `tokenizer.rs`
lines 37-43. -/
def recognizedSym (c : Char) : Bool :=
  c == '+' || c == '-' || c == '*' || c == '/' || c == '^' || c == '(' || c == ')'

/-! ## Claim theorems on concrete inputs -/

/-- C1, counterexample: parsing `"2^3^4"` does not return
`Caret(Number 2, Caret(Number 3, Number 4))`; the claimed right-to-left
grouping of chained `^` fails on the code. -/
theorem c1_counterexample :
    parseNode "2^3^4" ≠ .ok (.Caret (.Number 2) (.Caret (.Number 3) (.Number 4))) := by
  decide

/-- C1, amended: exponentiation groups left-to-right. The right operand of
`^` is parsed at the `Power` threshold and the climbing loop requires a
strictly greater precedence, so a following `^` is not folded into the right
operand; `"2^3^4"` parses as `Caret(Caret(Number 2, Number 3), Number 4)`. -/
theorem c1_caret_groups_left :
    parseNode "2^3^4" = .ok (.Caret (.Caret (.Number 2) (.Number 3)) (.Number 4)) := by
  decide

/-- C4: unary minus binds before exponentiation combines the base; `"-1^2"`
parses as `Caret(Negative(Number 1), Number 2)`, because the operand of the
unary minus is parsed at the `Negative` threshold, which stops before folding
the `^`. -/
theorem c4_unary_minus_before_caret :
    parseNode "-1^2" = .ok (.Caret (.Negative (.Number 1)) (.Number 2)) := by
  decide

/-- C5: implicit multiplication between adjacent parenthesized groups;
`"(1+2)(3+4)"` parses as
`Multiply(Add(Number 1, Number 2), Add(Number 3, Number 4))`. -/
theorem c5_implicit_multiplication :
    parseNode "(1+2)(3+4)" =
      .ok (.Multiply (.Add (.Number 1) (.Number 2)) (.Add (.Number 3) (.Number 4))) := by
  decide

/-- C6: the binary operators `+ - * /` group left-to-right; `"1+2+3"` parses
as `Add(Add(Number 1, Number 2), Number 3)` and not as
`Add(Number 1, Add(Number 2, Number 3))`, and likewise for `-`, `*`, `/`. -/
theorem c6_binary_left_assoc :
    parseNode "1+2+3" = .ok (.Add (.Add (.Number 1) (.Number 2)) (.Number 3)) ∧
    parseNode "1+2+3" ≠ .ok (.Add (.Number 1) (.Add (.Number 2) (.Number 3))) ∧
    parseNode "1-2-3" = .ok (.Subtract (.Subtract (.Number 1) (.Number 2)) (.Number 3)) ∧
    parseNode "1*2*3" = .ok (.Multiply (.Multiply (.Number 1) (.Number 2)) (.Number 3)) ∧
    parseNode "1/2/3" = .ok (.Divide (.Divide (.Number 1) (.Number 2)) (.Number 3)) := by
  refine ⟨by decide, by decide, by decide, by decide, by decide⟩

/-- C7: multiplication binds tighter than addition; `"1+2*3"` parses as
`Add(Number 1, Multiply(Number 2, Number 3))`, because the right operand of
`+` is parsed at the `AddSub` threshold, which keeps folding the
higher-precedence `*`. -/
theorem c7_mul_binds_tighter :
    parseNode "1+2*3" = .ok (.Add (.Number 1) (.Multiply (.Number 2) (.Number 3))) := by
  decide

/-- C10: chained implicit multiplication nests to the right —
`"(1)(2)(3)"` parses as `Multiply(Number 1, Multiply(Number 2, Number 3))` —
whereas explicit `"1*2*3"` nests to the left as
`Multiply(Multiply(Number 1, Number 2), Number 3)`. -/
theorem c10_implicit_mul_right_nested :
    parseNode "(1)(2)(3)" =
      .ok (.Multiply (.Number 1) (.Multiply (.Number 2) (.Number 3))) ∧
    parseNode "1*2*3" =
      .ok (.Multiply (.Multiply (.Number 1) (.Number 2)) (.Number 3)) := by
  refine ⟨by decide, by decide⟩

/-- C3, counterexample: after the call that returns `EndOfInput` the
tokenizer does not become silent — the very next call returns `EndOfInput`
again (the exhausted state keeps producing `Some(EOF)`); and after a call
that hits an unrecognized character (`'a'`), the next call returns the `+`
token rather than nothing. -/
theorem c3_counterexample :
    Tokenizer.next [] = (.tok .EOF, []) ∧
    Tokenizer.next (Tokenizer.next []).2 = (.tok .EOF, []) ∧
    Tokenizer.next ['a', '+'] = (.fail, ['+']) ∧
    Tokenizer.next ['+'] = (.tok .Add, []) := by
  decide

/-- C3, amended: the tokenizer returns the `EndOfInput` token on a call
exactly when its input is exhausted, leaving the state exhausted — so every
subsequent call returns `EndOfInput` again, not nothing; and a call hitting
an unrecognized character consumes that single character and yields nothing
for that call only, subsequent calls continuing with the remaining
characters. -/
theorem c3_eof_every_call :
    (∀ cs : List Char, Tokenizer.next cs = (.tok .EOF, []) ↔ cs = []) ∧
    (∀ (c : Char) (cs : List Char), c.isDigit = false → recognizedSym c = false →
      Tokenizer.next (c :: cs) = (.fail, cs)) := by
  constructor
  · intro cs
    constructor
    · intro h
      cases cs with
      | nil => rfl
      | cons c cs => exact absurd h (next_cons_ne_eof c cs [])
    · rintro rfl
      rfl
  · intro c cs hd hs
    simp only [recognizedSym, Bool.or_eq_false_iff, beq_eq_false_iff_ne] at hs
    obtain ⟨⟨⟨⟨⟨⟨h1, h2⟩, h3⟩, h4⟩, h5⟩, h6⟩, h7⟩ := hs
    simp [Tokenizer.next, hd, h1, h2, h3, h4, h5, h6, h7]

/-- C3 witness for `c3_eof_every_call`: instantiating the amended claim at
concrete inputs. -/
theorem c3_eof_every_call_witness :
    (Tokenizer.next ['+'] = (.tok .EOF, []) ↔ ['+'] = ([] : List Char)) ∧
    Tokenizer.next ['x', '1'] = (.fail, ['1']) :=
  ⟨c3_eof_every_call.1 ['+'], c3_eof_every_call.2 'x' ['1'] (by decide) (by decide)⟩

/-- C8: `UnableToParse` is produced exactly at the primary-expression
position — whenever `parse_number` sees a current token that is not a
number, a unary minus, or a left parenthesis it immediately fails with
`UnableToParse("Unable to parse")` — and in particular `"*2"`, whose first
token is a binary operator, fails with `UnableToParse`, not
`InvalidOperator`. -/
theorem c8_unable_to_parse :
    (∀ (f : Nat) (st : PState),
      (∀ v, st.current ≠ Token.Num v) →
      st.current ≠ Token.Subtract →
      st.current ≠ Token.LeftParen →
      parse_number (f + 1) st = .err (.UnableToParse "Unable to parse")) ∧
    parseNode "*2" = .err (.UnableToParse "Unable to parse") := by
  constructor
  · intro f st hnum hsub hlp
    cases hc : st.current
    case Num v => exact absurd hc (hnum v)
    case Subtract => exact absurd hc hsub
    case LeftParen => exact absurd hc hlp
    all_goals simp [parse_number, hc]
  · decide

/-- C8 witness for `c8_unable_to_parse`: at the concrete state whose current
token is `^` (which cannot begin a primary expression), `parse_number` fails
with `UnableToParse`. -/
theorem c8_unable_to_parse_witness :
    parse_number 1 ⟨[], Token.Caret⟩ = .err (.UnableToParse "Unable to parse") :=
  c8_unable_to_parse.1 0 ⟨[], Token.Caret⟩ (fun _ h => nomatch h) (fun h => nomatch h)
    (fun h => nomatch h)

/-- C9: the numeric-literal branch of `Tokenizer::next` is not total — when
a digit begins a literal whose scanned digit-and-dot text fails the `f64`
parse (e.g. two decimal points), the call panics (the `unwrap()` on the
failed parse) instead of returning `None` or a token; concretely, `"1..2"`
panics. -/
theorem c9_tokenizer_panics :
    (∀ (c : Char) (cs : List Char), c.isDigit = true →
      parseF64 (c :: (scanNum cs).1) = none →
      Tokenizer.next (c :: cs) = (.panicked, (scanNum cs).2)) ∧
    Tokenizer.next ['1', '.', '.', '2'] = (.panicked, []) := by
  constructor
  · intro c cs hd hp
    simp [Tokenizer.next, hd, hp]
  · decide

/-- C9 witness for `c9_tokenizer_panics`: the general panic statement
instantiated at the literal `"1..2"`. -/
theorem c9_tokenizer_panics_witness :
    Tokenizer.next ('1' :: ['.', '.', '2']) = (.panicked, (scanNum ['.', '.', '2']).2) :=
  c9_tokenizer_panics.1 '1' ['.', '.', '2'] (by decide) (by decide)

/-- C2, counterexample: a successful parse does not necessarily consume the
entire input — on `"1)"`, `parse` succeeds with `Number 1` while the
unconsumed current token is `RightParen`, a token other than `EndOfInput`. -/
theorem c2_counterexample :
    parseExpr "1)" = .ok (.Number 1, ⟨[], .RightParen⟩) ∧
    Token.RightParen ≠ Token.EOF := by
  refine ⟨by decide, by decide⟩

/-! ## Termination and totality machinery for C2

`mu` measures a parser state: remaining characters plus one if the lookahead
is not yet `EOF`. Every successful token pull strictly decreases it. -/

/-- Parser-state measure: remaining characters, plus one for a pending
non-`EOF` lookahead token. -/
def mu (st : PState) : Nat :=
  st.rest.length + (if st.current = Token.EOF then 0 else 1)

theorem scanNum_length (cs : List Char) : (scanNum cs).2.length ≤ cs.length := by
  induction cs with
  | nil => simp [scanNum]
  | cons c cs ih =>
    simp only [scanNum]
    split
    · exact Nat.le_succ_of_le ih
    · simp

theorem scanNum_suffix (cs : List Char) : (scanNum cs).2 <:+ cs := by
  induction cs with
  | nil => simp [scanNum]
  | cons c cs ih =>
    simp only [scanNum]
    split
    · exact ih.trans (List.suffix_cons c cs)
    · exact List.suffix_refl _

theorem next_cons_length (c : Char) (cs : List Char) :
    (Tokenizer.next (c :: cs)).2.length ≤ cs.length := by
  simp only [Tokenizer.next]
  repeat' split
  all_goals simp [scanNum_length]

theorem next_suffix (l : List Char) : (Tokenizer.next l).2 <:+ l := by
  cases l with
  | nil => simp [Tokenizer.next]
  | cons c cs =>
    have h : (Tokenizer.next (c :: cs)).2 <:+ cs := by
      simp only [Tokenizer.next]
      repeat' split
      all_goals simp [scanNum_suffix]
    exact h.trans (List.suffix_cons c cs)

theorem get_next_mu {st st' : PState} (h : st.current ≠ Token.EOF)
    (hg : get_next_token st = .ok st') : mu st' < mu st := by
  unfold get_next_token at hg
  cases hr : st.rest with
  | nil =>
    rw [hr] at hg
    simp only [Tokenizer.next] at hg
    cases hg
    simp [mu, hr, h]
  | cons c cs =>
    rw [hr] at hg
    have hl := next_cons_length c cs
    rcases hn : Tokenizer.next (c :: cs) with ⟨r, rest⟩
    rw [hn] at hg hl
    cases r with
    | tok t =>
      cases hg
      have hl' : rest.length ≤ cs.length := by simpa using hl
      have h2 : mu (⟨rest, t⟩ : PState) ≤ rest.length + 1 := by
        simp only [mu]
        split <;> omega
      have h3 : mu st = cs.length + 1 + 1 := by
        simp [mu, hr, h]
      omega
    | fail => cases hg
    | panicked => cases hg

theorem get_next_suffix {st st' : PState} (hg : get_next_token st = .ok st') :
    st'.rest <:+ st.rest := by
  unfold get_next_token at hg
  have hs := next_suffix st.rest
  rcases hn : Tokenizer.next st.rest with ⟨r, rest⟩
  rw [hn] at hg hs
  cases r with
  | tok t => cases hg; exact hs
  | fail => cases hg
  | panicked => cases hg

theorem get_next_nopanic {st : PState}
    (h : (Tokenizer.next st.rest).1 ≠ Scanned.panicked) :
    get_next_token st ≠ .panicked := by
  unfold get_next_token
  rcases hn : Tokenizer.next st.rest with ⟨r, rest⟩
  rw [hn] at h
  cases r with
  | tok t => simp
  | fail => simp
  | panicked => exact absurd rfl h

theorem check_paren_mu {st st' : PState} (h : check_paren st = .ok st') :
    mu st' < mu st := by
  unfold check_paren at h
  split at h
  · exact get_next_mu (by simp_all) h
  · cases h

theorem check_paren_suffix {st st' : PState} (h : check_paren st = .ok st') :
    st'.rest <:+ st.rest := by
  unfold check_paren at h
  split at h
  · exact get_next_suffix h
  · cases h

theorem check_paren_nopanic {st : PState}
    (h : (Tokenizer.next st.rest).1 ≠ Scanned.panicked) :
    check_paren st ≠ .panicked := by
  unfold check_paren
  split
  · exact get_next_nopanic h
  · simp

/-- Successful parser steps consume input: `generate_ast`, `parse_number`
and `convert_token_to_node` strictly decrease the measure, and the climbing
loop never increases it. -/
theorem mu_decrease (fuel : Nat) :
    (∀ st prec n st', generate_ast fuel st prec = .ok (n, st') → mu st' < mu st) ∧
    (∀ st prec left n st', generate_ast_loop fuel st prec left = .ok (n, st') → mu st' ≤ mu st) ∧
    (∀ st n st', parse_number fuel st = .ok (n, st') → mu st' < mu st) ∧
    (∀ st left n st', convert_token_to_node fuel st left = .ok (n, st') → mu st' < mu st) := by
  induction fuel with
  | zero =>
    refine ⟨?_, ?_, ?_, ?_⟩
    · intro st prec n st' h; exact nomatch h
    · intro st prec left n st' h; exact nomatch h
    · intro st n st' h; exact nomatch h
    · intro st left n st' h; exact nomatch h
  | succ f ih =>
    obtain ⟨ihGA, ihGL, ihPN, ihCV⟩ := ih
    refine ⟨?_, ?_, ?_, ?_⟩
    · intro st prec n st' h
      simp only [generate_ast] at h
      cases hp : parse_number f st with
      | ok a =>
        obtain ⟨left, st1⟩ := a
        rw [hp] at h
        exact lt_of_le_of_lt (ihGL st1 prec left n st' h) (ihPN st left st1 hp)
      | err e => rw [hp] at h; exact nomatch h
      | panicked => rw [hp] at h; exact nomatch h
      | nofuel => rw [hp] at h; exact nomatch h
    · intro st prec left n st' h
      simp only [generate_ast_loop] at h
      split at h
      · split at h
        · cases h; exact le_refl _
        · cases hc : convert_token_to_node f st left with
          | ok a =>
            obtain ⟨l2, st2⟩ := a
            rw [hc] at h
            exact le_trans (ihGL st2 prec l2 n st' h) (le_of_lt (ihCV st left l2 st2 hc))
          | err e => rw [hc] at h; exact nomatch h
          | panicked => rw [hc] at h; exact nomatch h
          | nofuel => rw [hc] at h; exact nomatch h
      · cases h; exact le_refl _
    · intro st n st' h
      simp only [parse_number] at h
      split at h
      case _ heq =>
        cases hg : get_next_token st with
        | ok st1 =>
          rw [hg] at h; simp only [] at h
          cases ha : generate_ast f st1 .Negative with
          | ok a =>
            obtain ⟨expr, st2⟩ := a
            rw [ha] at h; simp only [] at h
            cases h
            exact lt_trans (ihGA st1 .Negative expr _ ha)
              (get_next_mu (by simp [heq]) hg)
          | err e => rw [ha] at h; simp only [] at h; exact nomatch h
          | panicked => rw [ha] at h; simp only [] at h; exact nomatch h
          | nofuel => rw [ha] at h; simp only [] at h; exact nomatch h
        | err e => rw [hg] at h; simp only [] at h; exact nomatch h
        | panicked => rw [hg] at h; simp only [] at h; exact nomatch h
        | nofuel => rw [hg] at h; simp only [] at h; exact nomatch h
      case _ i heq =>
        cases hg : get_next_token st with
        | ok st1 =>
          rw [hg] at h; simp only [] at h
          cases h
          exact get_next_mu (by simp [heq]) hg
        | err e => rw [hg] at h; simp only [] at h; exact nomatch h
        | panicked => rw [hg] at h; simp only [] at h; exact nomatch h
        | nofuel => rw [hg] at h; simp only [] at h; exact nomatch h
      case _ heq =>
        cases hg : get_next_token st with
        | ok st1 =>
          rw [hg] at h; simp only [] at h
          cases ha : generate_ast f st1 .DefaultZero with
          | ok a =>
            obtain ⟨expr, st2⟩ := a
            rw [ha] at h; simp only [] at h
            cases hcp : check_paren st2 with
            | ok st3 =>
              rw [hcp] at h; simp only [] at h
              have h3 : mu st3 < mu st :=
                lt_trans (lt_trans (check_paren_mu hcp) (ihGA st1 .DefaultZero expr st2 ha))
                  (get_next_mu (by simp [heq]) hg)
              split at h
              · cases hb : generate_ast f st3 .MulDiv with
                | ok b =>
                  obtain ⟨right, st4⟩ := b
                  rw [hb] at h; simp only [] at h
                  cases h
                  exact lt_trans (ihGA st3 .MulDiv right _ hb) h3
                | err e => rw [hb] at h; simp only [] at h; exact nomatch h
                | panicked => rw [hb] at h; simp only [] at h; exact nomatch h
                | nofuel => rw [hb] at h; simp only [] at h; exact nomatch h
              · cases h; exact h3
            | err e => rw [hcp] at h; simp only [] at h; exact nomatch h
            | panicked => rw [hcp] at h; simp only [] at h; exact nomatch h
            | nofuel => rw [hcp] at h; simp only [] at h; exact nomatch h
          | err e => rw [ha] at h; simp only [] at h; exact nomatch h
          | panicked => rw [ha] at h; simp only [] at h; exact nomatch h
          | nofuel => rw [ha] at h; simp only [] at h; exact nomatch h
        | err e => rw [hg] at h; simp only [] at h; exact nomatch h
        | panicked => rw [hg] at h; simp only [] at h; exact nomatch h
        | nofuel => rw [hg] at h; simp only [] at h; exact nomatch h
      case _ => exact nomatch h
    · intro st left n st' h
      simp only [convert_token_to_node] at h
      split at h
      case _ heq =>
        cases hg : get_next_token st with
        | ok st1 =>
          rw [hg] at h; simp only [] at h
          cases ha : generate_ast f st1 .AddSub with
          | ok a =>
            obtain ⟨right, st2⟩ := a
            rw [ha] at h; simp only [] at h
            cases h
            exact lt_trans (ihGA st1 .AddSub right _ ha) (get_next_mu (by simp [heq]) hg)
          | err e => rw [ha] at h; simp only [] at h; exact nomatch h
          | panicked => rw [ha] at h; simp only [] at h; exact nomatch h
          | nofuel => rw [ha] at h; simp only [] at h; exact nomatch h
        | err e => rw [hg] at h; simp only [] at h; exact nomatch h
        | panicked => rw [hg] at h; simp only [] at h; exact nomatch h
        | nofuel => rw [hg] at h; simp only [] at h; exact nomatch h
      case _ heq =>
        cases hg : get_next_token st with
        | ok st1 =>
          rw [hg] at h; simp only [] at h
          cases ha : generate_ast f st1 .AddSub with
          | ok a =>
            obtain ⟨right, st2⟩ := a
            rw [ha] at h; simp only [] at h
            cases h
            exact lt_trans (ihGA st1 .AddSub right _ ha) (get_next_mu (by simp [heq]) hg)
          | err e => rw [ha] at h; simp only [] at h; exact nomatch h
          | panicked => rw [ha] at h; simp only [] at h; exact nomatch h
          | nofuel => rw [ha] at h; simp only [] at h; exact nomatch h
        | err e => rw [hg] at h; simp only [] at h; exact nomatch h
        | panicked => rw [hg] at h; simp only [] at h; exact nomatch h
        | nofuel => rw [hg] at h; simp only [] at h; exact nomatch h
      case _ heq =>
        cases hg : get_next_token st with
        | ok st1 =>
          rw [hg] at h; simp only [] at h
          cases ha : generate_ast f st1 .MulDiv with
          | ok a =>
            obtain ⟨right, st2⟩ := a
            rw [ha] at h; simp only [] at h
            cases h
            exact lt_trans (ihGA st1 .MulDiv right _ ha) (get_next_mu (by simp [heq]) hg)
          | err e => rw [ha] at h; simp only [] at h; exact nomatch h
          | panicked => rw [ha] at h; simp only [] at h; exact nomatch h
          | nofuel => rw [ha] at h; simp only [] at h; exact nomatch h
        | err e => rw [hg] at h; simp only [] at h; exact nomatch h
        | panicked => rw [hg] at h; simp only [] at h; exact nomatch h
        | nofuel => rw [hg] at h; simp only [] at h; exact nomatch h
      case _ heq =>
        cases hg : get_next_token st with
        | ok st1 =>
          rw [hg] at h; simp only [] at h
          cases ha : generate_ast f st1 .MulDiv with
          | ok a =>
            obtain ⟨right, st2⟩ := a
            rw [ha] at h; simp only [] at h
            cases h
            exact lt_trans (ihGA st1 .MulDiv right _ ha) (get_next_mu (by simp [heq]) hg)
          | err e => rw [ha] at h; simp only [] at h; exact nomatch h
          | panicked => rw [ha] at h; simp only [] at h; exact nomatch h
          | nofuel => rw [ha] at h; simp only [] at h; exact nomatch h
        | err e => rw [hg] at h; simp only [] at h; exact nomatch h
        | panicked => rw [hg] at h; simp only [] at h; exact nomatch h
        | nofuel => rw [hg] at h; simp only [] at h; exact nomatch h
      case _ heq =>
        cases hg : get_next_token st with
        | ok st1 =>
          rw [hg] at h; simp only [] at h
          cases ha : generate_ast f st1 .Power with
          | ok a =>
            obtain ⟨right, st2⟩ := a
            rw [ha] at h; simp only [] at h
            cases h
            exact lt_trans (ihGA st1 .Power right _ ha) (get_next_mu (by simp [heq]) hg)
          | err e => rw [ha] at h; simp only [] at h; exact nomatch h
          | panicked => rw [ha] at h; simp only [] at h; exact nomatch h
          | nofuel => rw [ha] at h; simp only [] at h; exact nomatch h
        | err e => rw [hg] at h; simp only [] at h; exact nomatch h
        | panicked => rw [hg] at h; simp only [] at h; exact nomatch h
        | nofuel => rw [hg] at h; simp only [] at h; exact nomatch h
      case _ => exact nomatch h

theorem get_next_ne_nofuel (st : PState) : get_next_token st ≠ .nofuel := by
  unfold get_next_token
  rcases Tokenizer.next st.rest with ⟨r, rest⟩
  cases r <;> simp

theorem check_paren_ne_nofuel (st : PState) : check_paren st ≠ .nofuel := by
  unfold check_paren
  split
  · exact get_next_ne_nofuel st
  · simp

theorem get_next_preserve {cs : List Char}
    (H : ∀ suf, suf <:+ cs → (Tokenizer.next suf).1 ≠ Scanned.panicked)
    {st : PState} (hst : st.rest <:+ cs) :
    get_next_token st ≠ .panicked ∧
    ∀ st', get_next_token st = .ok st' → st'.rest <:+ cs :=
  ⟨get_next_nopanic (H st.rest hst), fun _ h => (get_next_suffix h).trans hst⟩

theorem check_paren_preserve {cs : List Char}
    (H : ∀ suf, suf <:+ cs → (Tokenizer.next suf).1 ≠ Scanned.panicked)
    {st : PState} (hst : st.rest <:+ cs) :
    check_paren st ≠ .panicked ∧
    ∀ st', check_paren st = .ok st' → st'.rest <:+ cs :=
  ⟨check_paren_nopanic (H st.rest hst), fun _ h => (check_paren_suffix h).trans hst⟩

/-- If the tokenizer cannot panic on any suffix of the original input, no
parser routine can produce the panic outcome, and every successful routine
leaves the remaining input a suffix of the original input. -/
theorem no_panic (cs : List Char)
    (H : ∀ suf, suf <:+ cs → (Tokenizer.next suf).1 ≠ Scanned.panicked) (fuel : Nat) :
    (∀ st prec, st.rest <:+ cs →
      generate_ast fuel st prec ≠ .panicked ∧
      ∀ n st', generate_ast fuel st prec = .ok (n, st') → st'.rest <:+ cs) ∧
    (∀ st prec left, st.rest <:+ cs →
      generate_ast_loop fuel st prec left ≠ .panicked ∧
      ∀ n st', generate_ast_loop fuel st prec left = .ok (n, st') → st'.rest <:+ cs) ∧
    (∀ st, st.rest <:+ cs →
      parse_number fuel st ≠ .panicked ∧
      ∀ n st', parse_number fuel st = .ok (n, st') → st'.rest <:+ cs) ∧
    (∀ st left, st.rest <:+ cs →
      convert_token_to_node fuel st left ≠ .panicked ∧
      ∀ n st', convert_token_to_node fuel st left = .ok (n, st') → st'.rest <:+ cs) := by
  induction fuel with
  | zero =>
    refine ⟨?_, ?_, ?_, ?_⟩ <;> intros <;>
      exact ⟨(fun h => nomatch h), (fun n st' h => nomatch h)⟩
  | succ f ih =>
    obtain ⟨ihGA, ihGL, ihPN, ihCV⟩ := ih
    refine ⟨?_, ?_, ?_, ?_⟩
    · intro st prec hst
      cases hp : parse_number f st with
      | ok a =>
        obtain ⟨left, st1⟩ := a
        have hEq : generate_ast (f + 1) st prec = generate_ast_loop f st1 prec left := by
          simp only [generate_ast, hp]
        rw [hEq]
        exact ihGL st1 prec left ((ihPN st hst).2 left st1 hp)
      | err e =>
        have hEq : generate_ast (f + 1) st prec = .err e := by
          simp only [generate_ast, hp]
        rw [hEq]
        exact ⟨(fun h => nomatch h), (fun n st' h => nomatch h)⟩
      | panicked => exact absurd hp (ihPN st hst).1
      | nofuel =>
        have hEq : generate_ast (f + 1) st prec = .nofuel := by
          simp only [generate_ast, hp]
        rw [hEq]
        exact ⟨(fun h => nomatch h), (fun n st' h => nomatch h)⟩
    · intro st prec left hst
      by_cases hcond : prec.toNat < st.current.get_oper_prec.toNat
      · by_cases heof : st.current = Token.EOF
        · have hEq : generate_ast_loop (f + 1) st prec left = .ok (left, st) := by
            simp only [generate_ast_loop]
            rw [if_pos hcond, if_pos heof]
          rw [hEq]
          exact ⟨(fun h => nomatch h), (fun n st' h => by cases h; exact hst)⟩
        · cases hc : convert_token_to_node f st left with
          | ok a =>
            obtain ⟨l2, st2⟩ := a
            have hEq : generate_ast_loop (f + 1) st prec left =
                generate_ast_loop f st2 prec l2 := by
              simp only [generate_ast_loop]
              rw [if_pos hcond, if_neg heof, hc]
            rw [hEq]
            exact ihGL st2 prec l2 ((ihCV st left hst).2 l2 st2 hc)
          | err e =>
            have hEq : generate_ast_loop (f + 1) st prec left = .err e := by
              simp only [generate_ast_loop]
              rw [if_pos hcond, if_neg heof, hc]
            rw [hEq]
            exact ⟨(fun h => nomatch h), (fun n st' h => nomatch h)⟩
          | panicked => exact absurd hc (ihCV st left hst).1
          | nofuel =>
            have hEq : generate_ast_loop (f + 1) st prec left = .nofuel := by
              simp only [generate_ast_loop]
              rw [if_pos hcond, if_neg heof, hc]
            rw [hEq]
            exact ⟨(fun h => nomatch h), (fun n st' h => nomatch h)⟩
      · have hEq : generate_ast_loop (f + 1) st prec left = .ok (left, st) := by
          simp only [generate_ast_loop]
          rw [if_neg hcond]
        rw [hEq]
        exact ⟨(fun h => nomatch h), (fun n st' h => by cases h; exact hst)⟩
    · intro st hst
      cases hcur : st.current
      case Subtract =>
        obtain ⟨hgnp, hgsuf⟩ := get_next_preserve H hst
        cases hg : get_next_token st with
        | ok st1 =>
          have hst1 : st1.rest <:+ cs := hgsuf st1 hg
          cases ha : generate_ast f st1 .Negative with
          | ok a =>
            obtain ⟨expr, st2⟩ := a
            have hEq : parse_number (f + 1) st = .ok (.Negative expr, st2) := by
              simp only [parse_number, hcur, hg, ha]
            rw [hEq]
            exact ⟨(fun h => nomatch h),
              fun n st' h => by cases h; exact (ihGA st1 .Negative hst1).2 expr _ ha⟩
          | err e =>
            have hEq : parse_number (f + 1) st = .err e := by
              simp only [parse_number, hcur, hg, ha]
            rw [hEq]
            exact ⟨(fun h => nomatch h), (fun n st' h => nomatch h)⟩
          | panicked => exact absurd ha (ihGA st1 .Negative hst1).1
          | nofuel =>
            have hEq : parse_number (f + 1) st = .nofuel := by
              simp only [parse_number, hcur, hg, ha]
            rw [hEq]
            exact ⟨(fun h => nomatch h), (fun n st' h => nomatch h)⟩
        | err e =>
          have hEq : parse_number (f + 1) st = .err e := by
            simp only [parse_number, hcur, hg]
          rw [hEq]
          exact ⟨(fun h => nomatch h), (fun n st' h => nomatch h)⟩
        | panicked => exact absurd hg hgnp
        | nofuel => exact absurd hg (get_next_ne_nofuel st)
      case Num i =>
        obtain ⟨hgnp, hgsuf⟩ := get_next_preserve H hst
        cases hg : get_next_token st with
        | ok st1 =>
          have hEq : parse_number (f + 1) st = .ok (.Number i, st1) := by
            simp only [parse_number, hcur, hg]
          rw [hEq]
          exact ⟨(fun h => nomatch h), (fun n st' h => by cases h; exact hgsuf _ hg)⟩
        | err e =>
          have hEq : parse_number (f + 1) st = .err e := by
            simp only [parse_number, hcur, hg]
          rw [hEq]
          exact ⟨(fun h => nomatch h), (fun n st' h => nomatch h)⟩
        | panicked => exact absurd hg hgnp
        | nofuel => exact absurd hg (get_next_ne_nofuel st)
      case LeftParen =>
        obtain ⟨hgnp, hgsuf⟩ := get_next_preserve H hst
        cases hg : get_next_token st with
        | ok st1 =>
          have hst1 : st1.rest <:+ cs := hgsuf st1 hg
          cases ha : generate_ast f st1 .DefaultZero with
          | ok a =>
            obtain ⟨expr, st2⟩ := a
            have hst2 : st2.rest <:+ cs := (ihGA st1 .DefaultZero hst1).2 expr st2 ha
            obtain ⟨hcnp, hcsuf⟩ := check_paren_preserve H hst2
            cases hcp : check_paren st2 with
            | ok st3 =>
              have hst3 : st3.rest <:+ cs := hcsuf st3 hcp
              by_cases hlp : st3.current = Token.LeftParen
              · cases hb : generate_ast f st3 .MulDiv with
                | ok b =>
                  obtain ⟨right, st4⟩ := b
                  have hEq : parse_number (f + 1) st = .ok (.Multiply expr right, st4) := by
                    simp only [parse_number, hcur, hg, ha, hcp]
                    rw [if_pos hlp, hb]
                  rw [hEq]
                  exact ⟨(fun h => nomatch h),
                    fun n st' h => by cases h; exact (ihGA st3 .MulDiv hst3).2 right _ hb⟩
                | err e =>
                  have hEq : parse_number (f + 1) st = .err e := by
                    simp only [parse_number, hcur, hg, ha, hcp]
                    rw [if_pos hlp, hb]
                  rw [hEq]
                  exact ⟨(fun h => nomatch h), (fun n st' h => nomatch h)⟩
                | panicked => exact absurd hb (ihGA st3 .MulDiv hst3).1
                | nofuel =>
                  have hEq : parse_number (f + 1) st = .nofuel := by
                    simp only [parse_number, hcur, hg, ha, hcp]
                    rw [if_pos hlp, hb]
                  rw [hEq]
                  exact ⟨(fun h => nomatch h), (fun n st' h => nomatch h)⟩
              · have hEq : parse_number (f + 1) st = .ok (expr, st3) := by
                  simp only [parse_number, hcur, hg, ha, hcp]
                  rw [if_neg hlp]
                rw [hEq]
                exact ⟨(fun h => nomatch h), (fun n st' h => by cases h; exact hst3)⟩
            | err e =>
              have hEq : parse_number (f + 1) st = .err e := by
                simp only [parse_number, hcur, hg, ha, hcp]
              rw [hEq]
              exact ⟨(fun h => nomatch h), (fun n st' h => nomatch h)⟩
            | panicked => exact absurd hcp hcnp
            | nofuel => exact absurd hcp (check_paren_ne_nofuel st2)
          | err e =>
            have hEq : parse_number (f + 1) st = .err e := by
              simp only [parse_number, hcur, hg, ha]
            rw [hEq]
            exact ⟨(fun h => nomatch h), (fun n st' h => nomatch h)⟩
          | panicked => exact absurd ha (ihGA st1 .DefaultZero hst1).1
          | nofuel =>
            have hEq : parse_number (f + 1) st = .nofuel := by
              simp only [parse_number, hcur, hg, ha]
            rw [hEq]
            exact ⟨(fun h => nomatch h), (fun n st' h => nomatch h)⟩
        | err e =>
          have hEq : parse_number (f + 1) st = .err e := by
            simp only [parse_number, hcur, hg]
          rw [hEq]
          exact ⟨(fun h => nomatch h), (fun n st' h => nomatch h)⟩
        | panicked => exact absurd hg hgnp
        | nofuel => exact absurd hg (get_next_ne_nofuel st)
      all_goals
        have hEq : parse_number (f + 1) st = .err (.UnableToParse "Unable to parse") := by
          simp only [parse_number, hcur]
      all_goals rw [hEq]
      all_goals exact ⟨(fun h => nomatch h), (fun n st' h => nomatch h)⟩
    · intro st left hst
      cases hcur : st.current
      case Add =>
        obtain ⟨hgnp, hgsuf⟩ := get_next_preserve H hst
        cases hg : get_next_token st with
        | ok st1 =>
          have hst1 : st1.rest <:+ cs := hgsuf st1 hg
          cases ha : generate_ast f st1 .AddSub with
          | ok a =>
            obtain ⟨right, st2⟩ := a
            have hEq : convert_token_to_node (f + 1) st left = .ok (.Add left right, st2) := by
              simp only [convert_token_to_node, hcur, hg, ha]
            rw [hEq]
            exact ⟨(fun h => nomatch h),
              fun n st' h => by cases h; exact (ihGA st1 .AddSub hst1).2 right _ ha⟩
          | err e =>
            have hEq : convert_token_to_node (f + 1) st left = .err e := by
              simp only [convert_token_to_node, hcur, hg, ha]
            rw [hEq]
            exact ⟨(fun h => nomatch h), (fun n st' h => nomatch h)⟩
          | panicked => exact absurd ha (ihGA st1 .AddSub hst1).1
          | nofuel =>
            have hEq : convert_token_to_node (f + 1) st left = .nofuel := by
              simp only [convert_token_to_node, hcur, hg, ha]
            rw [hEq]
            exact ⟨(fun h => nomatch h), (fun n st' h => nomatch h)⟩
        | err e =>
          have hEq : convert_token_to_node (f + 1) st left = .err e := by
            simp only [convert_token_to_node, hcur, hg]
          rw [hEq]
          exact ⟨(fun h => nomatch h), (fun n st' h => nomatch h)⟩
        | panicked => exact absurd hg hgnp
        | nofuel => exact absurd hg (get_next_ne_nofuel st)
      case Subtract =>
        obtain ⟨hgnp, hgsuf⟩ := get_next_preserve H hst
        cases hg : get_next_token st with
        | ok st1 =>
          have hst1 : st1.rest <:+ cs := hgsuf st1 hg
          cases ha : generate_ast f st1 .AddSub with
          | ok a =>
            obtain ⟨right, st2⟩ := a
            have hEq : convert_token_to_node (f + 1) st left =
                .ok (.Subtract left right, st2) := by
              simp only [convert_token_to_node, hcur, hg, ha]
            rw [hEq]
            exact ⟨(fun h => nomatch h),
              fun n st' h => by cases h; exact (ihGA st1 .AddSub hst1).2 right _ ha⟩
          | err e =>
            have hEq : convert_token_to_node (f + 1) st left = .err e := by
              simp only [convert_token_to_node, hcur, hg, ha]
            rw [hEq]
            exact ⟨(fun h => nomatch h), (fun n st' h => nomatch h)⟩
          | panicked => exact absurd ha (ihGA st1 .AddSub hst1).1
          | nofuel =>
            have hEq : convert_token_to_node (f + 1) st left = .nofuel := by
              simp only [convert_token_to_node, hcur, hg, ha]
            rw [hEq]
            exact ⟨(fun h => nomatch h), (fun n st' h => nomatch h)⟩
        | err e =>
          have hEq : convert_token_to_node (f + 1) st left = .err e := by
            simp only [convert_token_to_node, hcur, hg]
          rw [hEq]
          exact ⟨(fun h => nomatch h), (fun n st' h => nomatch h)⟩
        | panicked => exact absurd hg hgnp
        | nofuel => exact absurd hg (get_next_ne_nofuel st)
      case Multiply =>
        obtain ⟨hgnp, hgsuf⟩ := get_next_preserve H hst
        cases hg : get_next_token st with
        | ok st1 =>
          have hst1 : st1.rest <:+ cs := hgsuf st1 hg
          cases ha : generate_ast f st1 .MulDiv with
          | ok a =>
            obtain ⟨right, st2⟩ := a
            have hEq : convert_token_to_node (f + 1) st left =
                .ok (.Multiply left right, st2) := by
              simp only [convert_token_to_node, hcur, hg, ha]
            rw [hEq]
            exact ⟨(fun h => nomatch h),
              fun n st' h => by cases h; exact (ihGA st1 .MulDiv hst1).2 right _ ha⟩
          | err e =>
            have hEq : convert_token_to_node (f + 1) st left = .err e := by
              simp only [convert_token_to_node, hcur, hg, ha]
            rw [hEq]
            exact ⟨(fun h => nomatch h), (fun n st' h => nomatch h)⟩
          | panicked => exact absurd ha (ihGA st1 .MulDiv hst1).1
          | nofuel =>
            have hEq : convert_token_to_node (f + 1) st left = .nofuel := by
              simp only [convert_token_to_node, hcur, hg, ha]
            rw [hEq]
            exact ⟨(fun h => nomatch h), (fun n st' h => nomatch h)⟩
        | err e =>
          have hEq : convert_token_to_node (f + 1) st left = .err e := by
            simp only [convert_token_to_node, hcur, hg]
          rw [hEq]
          exact ⟨(fun h => nomatch h), (fun n st' h => nomatch h)⟩
        | panicked => exact absurd hg hgnp
        | nofuel => exact absurd hg (get_next_ne_nofuel st)
      case Divide =>
        obtain ⟨hgnp, hgsuf⟩ := get_next_preserve H hst
        cases hg : get_next_token st with
        | ok st1 =>
          have hst1 : st1.rest <:+ cs := hgsuf st1 hg
          cases ha : generate_ast f st1 .MulDiv with
          | ok a =>
            obtain ⟨right, st2⟩ := a
            have hEq : convert_token_to_node (f + 1) st left =
                .ok (.Divide left right, st2) := by
              simp only [convert_token_to_node, hcur, hg, ha]
            rw [hEq]
            exact ⟨(fun h => nomatch h),
              fun n st' h => by cases h; exact (ihGA st1 .MulDiv hst1).2 right _ ha⟩
          | err e =>
            have hEq : convert_token_to_node (f + 1) st left = .err e := by
              simp only [convert_token_to_node, hcur, hg, ha]
            rw [hEq]
            exact ⟨(fun h => nomatch h), (fun n st' h => nomatch h)⟩
          | panicked => exact absurd ha (ihGA st1 .MulDiv hst1).1
          | nofuel =>
            have hEq : convert_token_to_node (f + 1) st left = .nofuel := by
              simp only [convert_token_to_node, hcur, hg, ha]
            rw [hEq]
            exact ⟨(fun h => nomatch h), (fun n st' h => nomatch h)⟩
        | err e =>
          have hEq : convert_token_to_node (f + 1) st left = .err e := by
            simp only [convert_token_to_node, hcur, hg]
          rw [hEq]
          exact ⟨(fun h => nomatch h), (fun n st' h => nomatch h)⟩
        | panicked => exact absurd hg hgnp
        | nofuel => exact absurd hg (get_next_ne_nofuel st)
      case Caret =>
        obtain ⟨hgnp, hgsuf⟩ := get_next_preserve H hst
        cases hg : get_next_token st with
        | ok st1 =>
          have hst1 : st1.rest <:+ cs := hgsuf st1 hg
          cases ha : generate_ast f st1 .Power with
          | ok a =>
            obtain ⟨right, st2⟩ := a
            have hEq : convert_token_to_node (f + 1) st left =
                .ok (.Caret left right, st2) := by
              simp only [convert_token_to_node, hcur, hg, ha]
            rw [hEq]
            exact ⟨(fun h => nomatch h),
              fun n st' h => by cases h; exact (ihGA st1 .Power hst1).2 right _ ha⟩
          | err e =>
            have hEq : convert_token_to_node (f + 1) st left = .err e := by
              simp only [convert_token_to_node, hcur, hg, ha]
            rw [hEq]
            exact ⟨(fun h => nomatch h), (fun n st' h => nomatch h)⟩
          | panicked => exact absurd ha (ihGA st1 .Power hst1).1
          | nofuel =>
            have hEq : convert_token_to_node (f + 1) st left = .nofuel := by
              simp only [convert_token_to_node, hcur, hg, ha]
            rw [hEq]
            exact ⟨(fun h => nomatch h), (fun n st' h => nomatch h)⟩
        | err e =>
          have hEq : convert_token_to_node (f + 1) st left = .err e := by
            simp only [convert_token_to_node, hcur, hg]
          rw [hEq]
          exact ⟨(fun h => nomatch h), (fun n st' h => nomatch h)⟩
        | panicked => exact absurd hg hgnp
        | nofuel => exact absurd hg (get_next_ne_nofuel st)
      all_goals
        have hEq : convert_token_to_node (f + 1) st left =
          .err (.InvalidOperator ("Please enter valid operator " ++ st.current.debugRepr)) := by
          simp only [convert_token_to_node, hcur]
      all_goals rw [hEq]
      all_goals exact ⟨(fun h => nomatch h), (fun n st' h => nomatch h)⟩

/-- Fuel sufficiency: with fuel at least four times the measure (plus a small
per-routine constant), no parser routine runs out of fuel, so the fuel-based
embedding computes the source's total behaviour. -/
theorem fuel_enough (fuel : Nat) :
    (∀ st prec, 4 * mu st + 3 ≤ fuel → generate_ast fuel st prec ≠ .nofuel) ∧
    (∀ st prec left, 4 * mu st + 2 ≤ fuel → generate_ast_loop fuel st prec left ≠ .nofuel) ∧
    (∀ st, 4 * mu st + 1 ≤ fuel → parse_number fuel st ≠ .nofuel) ∧
    (∀ st left, 4 * mu st + 1 ≤ fuel → convert_token_to_node fuel st left ≠ .nofuel) := by
  induction fuel with
  | zero =>
    refine ⟨?_, ?_, ?_, ?_⟩ <;> intros <;> omega
  | succ f ih =>
    obtain ⟨ihGA, ihGL, ihPN, ihCV⟩ := ih
    refine ⟨?_, ?_, ?_, ?_⟩
    · intro st prec hb
      cases hp : parse_number f st with
      | ok a =>
        obtain ⟨left, st1⟩ := a
        have hmu : mu st1 < mu st := (mu_decrease f).2.2.1 st left st1 hp
        have hEq : generate_ast (f + 1) st prec = generate_ast_loop f st1 prec left := by
          simp only [generate_ast, hp]
        rw [hEq]
        exact ihGL st1 prec left (by omega)
      | err e =>
        have hEq : generate_ast (f + 1) st prec = .err e := by
          simp only [generate_ast, hp]
        rw [hEq]
        exact fun h => nomatch h
      | panicked =>
        have hEq : generate_ast (f + 1) st prec = .panicked := by
          simp only [generate_ast, hp]
        rw [hEq]
        exact fun h => nomatch h
      | nofuel => exact absurd hp (ihPN st (by omega))
    · intro st prec left hb
      by_cases hcond : OperPrec.toNat prec < st.current.get_oper_prec.toNat
      · by_cases heof : st.current = Token.EOF
        · have hEq : generate_ast_loop (f + 1) st prec left = .ok (left, st) := by
            simp only [generate_ast_loop]
            rw [if_pos hcond, if_pos heof]
          rw [hEq]
          exact fun h => nomatch h
        · cases hc : convert_token_to_node f st left with
          | ok a =>
            obtain ⟨l2, st2⟩ := a
            have hmu : mu st2 < mu st := (mu_decrease f).2.2.2 st left l2 st2 hc
            have hEq : generate_ast_loop (f + 1) st prec left =
                generate_ast_loop f st2 prec l2 := by
              simp only [generate_ast_loop]
              rw [if_pos hcond, if_neg heof, hc]
            rw [hEq]
            exact ihGL st2 prec l2 (by omega)
          | err e =>
            have hEq : generate_ast_loop (f + 1) st prec left = .err e := by
              simp only [generate_ast_loop]
              rw [if_pos hcond, if_neg heof, hc]
            rw [hEq]
            exact fun h => nomatch h
          | panicked =>
            have hEq : generate_ast_loop (f + 1) st prec left = .panicked := by
              simp only [generate_ast_loop]
              rw [if_pos hcond, if_neg heof, hc]
            rw [hEq]
            exact fun h => nomatch h
          | nofuel => exact absurd hc (ihCV st left (by omega))
      · have hEq : generate_ast_loop (f + 1) st prec left = .ok (left, st) := by
          simp only [generate_ast_loop]
          rw [if_neg hcond]
        rw [hEq]
        exact fun h => nomatch h
    · intro st hb
      cases hcur : st.current
      case Subtract =>
        cases hg : get_next_token st with
        | ok st1 =>
          have hmu : mu st1 < mu st := get_next_mu (by simp [hcur]) hg
          cases ha : generate_ast f st1 .Negative with
          | ok a =>
            obtain ⟨expr, st2⟩ := a
            have hEq : parse_number (f + 1) st = .ok (.Negative expr, st2) := by
              simp only [parse_number, hcur, hg, ha]
            rw [hEq]
            exact fun h => nomatch h
          | err e =>
            have hEq : parse_number (f + 1) st = .err e := by
              simp only [parse_number, hcur, hg, ha]
            rw [hEq]
            exact fun h => nomatch h
          | panicked =>
            have hEq : parse_number (f + 1) st = .panicked := by
              simp only [parse_number, hcur, hg, ha]
            rw [hEq]
            exact fun h => nomatch h
          | nofuel => exact absurd ha (ihGA st1 .Negative (by omega))
        | err e =>
          have hEq : parse_number (f + 1) st = .err e := by
            simp only [parse_number, hcur, hg]
          rw [hEq]
          exact fun h => nomatch h
        | panicked =>
          have hEq : parse_number (f + 1) st = .panicked := by
            simp only [parse_number, hcur, hg]
          rw [hEq]
          exact fun h => nomatch h
        | nofuel => exact absurd hg (get_next_ne_nofuel st)
      case Num i =>
        cases hg : get_next_token st with
        | ok st1 =>
          have hEq : parse_number (f + 1) st = .ok (.Number i, st1) := by
            simp only [parse_number, hcur, hg]
          rw [hEq]
          exact fun h => nomatch h
        | err e =>
          have hEq : parse_number (f + 1) st = .err e := by
            simp only [parse_number, hcur, hg]
          rw [hEq]
          exact fun h => nomatch h
        | panicked =>
          have hEq : parse_number (f + 1) st = .panicked := by
            simp only [parse_number, hcur, hg]
          rw [hEq]
          exact fun h => nomatch h
        | nofuel => exact absurd hg (get_next_ne_nofuel st)
      case LeftParen =>
        cases hg : get_next_token st with
        | ok st1 =>
          have hmu1 : mu st1 < mu st := get_next_mu (by simp [hcur]) hg
          cases ha : generate_ast f st1 .DefaultZero with
          | ok a =>
            obtain ⟨expr, st2⟩ := a
            have hmu2 : mu st2 < mu st1 := (mu_decrease f).1 st1 .DefaultZero expr st2 ha
            cases hcp : check_paren st2 with
            | ok st3 =>
              have hmu3 : mu st3 < mu st2 := check_paren_mu hcp
              by_cases hlp : st3.current = Token.LeftParen
              · cases hb2 : generate_ast f st3 .MulDiv with
                | ok b =>
                  obtain ⟨right, st4⟩ := b
                  have hEq : parse_number (f + 1) st = .ok (.Multiply expr right, st4) := by
                    simp only [parse_number, hcur, hg, ha, hcp]
                    rw [if_pos hlp, hb2]
                  rw [hEq]
                  exact fun h => nomatch h
                | err e =>
                  have hEq : parse_number (f + 1) st = .err e := by
                    simp only [parse_number, hcur, hg, ha, hcp]
                    rw [if_pos hlp, hb2]
                  rw [hEq]
                  exact fun h => nomatch h
                | panicked =>
                  have hEq : parse_number (f + 1) st = .panicked := by
                    simp only [parse_number, hcur, hg, ha, hcp]
                    rw [if_pos hlp, hb2]
                  rw [hEq]
                  exact fun h => nomatch h
                | nofuel => exact absurd hb2 (ihGA st3 .MulDiv (by omega))
              · have hEq : parse_number (f + 1) st = .ok (expr, st3) := by
                  simp only [parse_number, hcur, hg, ha, hcp]
                  rw [if_neg hlp]
                rw [hEq]
                exact fun h => nomatch h
            | err e =>
              have hEq : parse_number (f + 1) st = .err e := by
                simp only [parse_number, hcur, hg, ha, hcp]
              rw [hEq]
              exact fun h => nomatch h
            | panicked =>
              have hEq : parse_number (f + 1) st = .panicked := by
                simp only [parse_number, hcur, hg, ha, hcp]
              rw [hEq]
              exact fun h => nomatch h
            | nofuel => exact absurd hcp (check_paren_ne_nofuel st2)
          | err e =>
            have hEq : parse_number (f + 1) st = .err e := by
              simp only [parse_number, hcur, hg, ha]
            rw [hEq]
            exact fun h => nomatch h
          | panicked =>
            have hEq : parse_number (f + 1) st = .panicked := by
              simp only [parse_number, hcur, hg, ha]
            rw [hEq]
            exact fun h => nomatch h
          | nofuel => exact absurd ha (ihGA st1 .DefaultZero (by omega))
        | err e =>
          have hEq : parse_number (f + 1) st = .err e := by
            simp only [parse_number, hcur, hg]
          rw [hEq]
          exact fun h => nomatch h
        | panicked =>
          have hEq : parse_number (f + 1) st = .panicked := by
            simp only [parse_number, hcur, hg]
          rw [hEq]
          exact fun h => nomatch h
        | nofuel => exact absurd hg (get_next_ne_nofuel st)
      all_goals
        have hEq : parse_number (f + 1) st = .err (.UnableToParse "Unable to parse") := by
          simp only [parse_number, hcur]
      all_goals rw [hEq]
      all_goals exact fun h => nomatch h
    · intro st left hb
      have hstep : ∀ (p : OperPrec), st.current ≠ Token.EOF →
          ∀ st1, get_next_token st = .ok st1 → generate_ast f st1 p ≠ .nofuel := by
        intro p hne st1 hg
        have hmu : mu st1 < mu st := get_next_mu hne hg
        exact ihGA st1 p (by omega)
      cases hcur : st.current
      case Add =>
        cases hg : get_next_token st with
        | ok st1 =>
          cases ha : generate_ast f st1 .AddSub with
          | ok a =>
            obtain ⟨right, st2⟩ := a
            have hEq : convert_token_to_node (f + 1) st left = .ok (.Add left right, st2) := by
              simp only [convert_token_to_node, hcur, hg, ha]
            rw [hEq]
            exact fun h => nomatch h
          | err e =>
            have hEq : convert_token_to_node (f + 1) st left = .err e := by
              simp only [convert_token_to_node, hcur, hg, ha]
            rw [hEq]
            exact fun h => nomatch h
          | panicked =>
            have hEq : convert_token_to_node (f + 1) st left = .panicked := by
              simp only [convert_token_to_node, hcur, hg, ha]
            rw [hEq]
            exact fun h => nomatch h
          | nofuel => exact absurd ha (hstep .AddSub (by simp [hcur]) st1 hg)
        | err e =>
          have hEq : convert_token_to_node (f + 1) st left = .err e := by
            simp only [convert_token_to_node, hcur, hg]
          rw [hEq]
          exact fun h => nomatch h
        | panicked =>
          have hEq : convert_token_to_node (f + 1) st left = .panicked := by
            simp only [convert_token_to_node, hcur, hg]
          rw [hEq]
          exact fun h => nomatch h
        | nofuel => exact absurd hg (get_next_ne_nofuel st)
      case Subtract =>
        cases hg : get_next_token st with
        | ok st1 =>
          cases ha : generate_ast f st1 .AddSub with
          | ok a =>
            obtain ⟨right, st2⟩ := a
            have hEq : convert_token_to_node (f + 1) st left =
                .ok (.Subtract left right, st2) := by
              simp only [convert_token_to_node, hcur, hg, ha]
            rw [hEq]
            exact fun h => nomatch h
          | err e =>
            have hEq : convert_token_to_node (f + 1) st left = .err e := by
              simp only [convert_token_to_node, hcur, hg, ha]
            rw [hEq]
            exact fun h => nomatch h
          | panicked =>
            have hEq : convert_token_to_node (f + 1) st left = .panicked := by
              simp only [convert_token_to_node, hcur, hg, ha]
            rw [hEq]
            exact fun h => nomatch h
          | nofuel => exact absurd ha (hstep .AddSub (by simp [hcur]) st1 hg)
        | err e =>
          have hEq : convert_token_to_node (f + 1) st left = .err e := by
            simp only [convert_token_to_node, hcur, hg]
          rw [hEq]
          exact fun h => nomatch h
        | panicked =>
          have hEq : convert_token_to_node (f + 1) st left = .panicked := by
            simp only [convert_token_to_node, hcur, hg]
          rw [hEq]
          exact fun h => nomatch h
        | nofuel => exact absurd hg (get_next_ne_nofuel st)
      case Multiply =>
        cases hg : get_next_token st with
        | ok st1 =>
          cases ha : generate_ast f st1 .MulDiv with
          | ok a =>
            obtain ⟨right, st2⟩ := a
            have hEq : convert_token_to_node (f + 1) st left =
                .ok (.Multiply left right, st2) := by
              simp only [convert_token_to_node, hcur, hg, ha]
            rw [hEq]
            exact fun h => nomatch h
          | err e =>
            have hEq : convert_token_to_node (f + 1) st left = .err e := by
              simp only [convert_token_to_node, hcur, hg, ha]
            rw [hEq]
            exact fun h => nomatch h
          | panicked =>
            have hEq : convert_token_to_node (f + 1) st left = .panicked := by
              simp only [convert_token_to_node, hcur, hg, ha]
            rw [hEq]
            exact fun h => nomatch h
          | nofuel => exact absurd ha (hstep .MulDiv (by simp [hcur]) st1 hg)
        | err e =>
          have hEq : convert_token_to_node (f + 1) st left = .err e := by
            simp only [convert_token_to_node, hcur, hg]
          rw [hEq]
          exact fun h => nomatch h
        | panicked =>
          have hEq : convert_token_to_node (f + 1) st left = .panicked := by
            simp only [convert_token_to_node, hcur, hg]
          rw [hEq]
          exact fun h => nomatch h
        | nofuel => exact absurd hg (get_next_ne_nofuel st)
      case Divide =>
        cases hg : get_next_token st with
        | ok st1 =>
          cases ha : generate_ast f st1 .MulDiv with
          | ok a =>
            obtain ⟨right, st2⟩ := a
            have hEq : convert_token_to_node (f + 1) st left =
                .ok (.Divide left right, st2) := by
              simp only [convert_token_to_node, hcur, hg, ha]
            rw [hEq]
            exact fun h => nomatch h
          | err e =>
            have hEq : convert_token_to_node (f + 1) st left = .err e := by
              simp only [convert_token_to_node, hcur, hg, ha]
            rw [hEq]
            exact fun h => nomatch h
          | panicked =>
            have hEq : convert_token_to_node (f + 1) st left = .panicked := by
              simp only [convert_token_to_node, hcur, hg, ha]
            rw [hEq]
            exact fun h => nomatch h
          | nofuel => exact absurd ha (hstep .MulDiv (by simp [hcur]) st1 hg)
        | err e =>
          have hEq : convert_token_to_node (f + 1) st left = .err e := by
            simp only [convert_token_to_node, hcur, hg]
          rw [hEq]
          exact fun h => nomatch h
        | panicked =>
          have hEq : convert_token_to_node (f + 1) st left = .panicked := by
            simp only [convert_token_to_node, hcur, hg]
          rw [hEq]
          exact fun h => nomatch h
        | nofuel => exact absurd hg (get_next_ne_nofuel st)
      case Caret =>
        cases hg : get_next_token st with
        | ok st1 =>
          cases ha : generate_ast f st1 .Power with
          | ok a =>
            obtain ⟨right, st2⟩ := a
            have hEq : convert_token_to_node (f + 1) st left =
                .ok (.Caret left right, st2) := by
              simp only [convert_token_to_node, hcur, hg, ha]
            rw [hEq]
            exact fun h => nomatch h
          | err e =>
            have hEq : convert_token_to_node (f + 1) st left = .err e := by
              simp only [convert_token_to_node, hcur, hg, ha]
            rw [hEq]
            exact fun h => nomatch h
          | panicked =>
            have hEq : convert_token_to_node (f + 1) st left = .panicked := by
              simp only [convert_token_to_node, hcur, hg, ha]
            rw [hEq]
            exact fun h => nomatch h
          | nofuel => exact absurd ha (hstep .Power (by simp [hcur]) st1 hg)
        | err e =>
          have hEq : convert_token_to_node (f + 1) st left = .err e := by
            simp only [convert_token_to_node, hcur, hg]
          rw [hEq]
          exact fun h => nomatch h
        | panicked =>
          have hEq : convert_token_to_node (f + 1) st left = .panicked := by
            simp only [convert_token_to_node, hcur, hg]
          rw [hEq]
          exact fun h => nomatch h
        | nofuel => exact absurd hg (get_next_ne_nofuel st)
      all_goals
        have hEq : convert_token_to_node (f + 1) st left =
          .err (.InvalidOperator ("Please enter valid operator " ++ st.current.debugRepr)) := by
          simp only [convert_token_to_node, hcur]
      all_goals rw [hEq]
      all_goals exact fun h => nomatch h

/-- C2, amended: for every ASCII source string on which the tokenizer cannot
panic (no position starts a malformed numeric literal, i.e. the tokenizer
returns a non-panic outcome on every suffix), the end-to-end parse terminates
and returns either exactly one complete `Node` or exactly one `ParseError`
with no partial tree — but a successful parse need not have consumed the
entire input: tokens whose precedence is `DefaultZero` can remain unconsumed
(`c2_counterexample`), and on a malformed numeric literal the tokenizer panic
is a third outcome (`c9_tokenizer_panics`). -/
theorem c2_parse_total (s : String)
    (hascii : s.toList.all (fun c => c.toNat < 128) = true)
    (H : ∀ suf ∈ s.toList.tails, (Tokenizer.next suf).1 ≠ Scanned.panicked) :
    (∃ n st', parseExpr s = .ok (n, st')) ∨ (∃ e, parseExpr s = .err e) := by
  have H' : ∀ suf, suf <:+ s.toList → (Tokenizer.next suf).1 ≠ Scanned.panicked :=
    fun suf hs => H suf ((List.mem_tails suf s.toList).mpr hs)
  unfold parseExpr
  cases hnew : Parser.new s with
  | ok st0 =>
    unfold Parser.new at hnew
    rcases hn : Tokenizer.next s.toList with ⟨r, rest⟩
    rw [hn] at hnew
    cases r with
    | tok t =>
      cases hnew
      have hsuf : rest <:+ s.toList := by
        have h := next_suffix s.toList
        rw [hn] at h
        exact h
      have hlen : rest.length ≤ s.toList.length := by
        have h := hsuf.length_le
        exact h
      have hmu : mu ⟨rest, t⟩ ≤ s.length + 1 := by
        have hsl : s.toList.length = s.length := rfl
        simp only [mu]
        split <;> omega
      have hfu : 4 * mu ⟨rest, t⟩ + 3 ≤ stdFuel s := by
        simp only [stdFuel]
        omega
      cases hres : Parser.parse (stdFuel s) ⟨rest, t⟩ with
      | ok a =>
        obtain ⟨n, st'⟩ := a
        exact Or.inl ⟨n, st', hres⟩
      | err e => exact Or.inr ⟨e, hres⟩
      | panicked =>
        exact absurd hres
          ((no_panic s.toList H' (stdFuel s)).1 ⟨rest, t⟩ .DefaultZero hsuf).1
      | nofuel =>
        exact absurd hres ((fuel_enough (stdFuel s)).1 ⟨rest, t⟩ .DefaultZero hfu)
    | fail => exact nomatch hnew
    | panicked => exact nomatch hnew
  | err e => exact Or.inr ⟨e, rfl⟩
  | panicked =>
    unfold Parser.new at hnew
    rcases hn : Tokenizer.next s.toList with ⟨r, rest⟩
    rw [hn] at hnew
    cases r with
    | tok t => exact nomatch hnew
    | fail => exact nomatch hnew
    | panicked =>
      have h := H' s.toList (List.suffix_refl _)
      rw [hn] at h
      exact absurd rfl h
  | nofuel =>
    unfold Parser.new at hnew
    rcases hn : Tokenizer.next s.toList with ⟨r, rest⟩
    rw [hn] at hnew
    cases r <;> exact nomatch hnew

/-- C2 witness for `c2_parse_total`: the amended claim instantiated at the
concrete source `"1+2"`. -/
theorem c2_parse_total_witness :
    (∃ n st', parseExpr "1+2" = .ok (n, st')) ∨ (∃ e, parseExpr "1+2" = .err e) :=
  c2_parse_total "1+2" (by decide) (by decide)

end ParseMath
